import Mathlib

/-!
# Orientation readings server (ForOrientationSensor.cpp)

A shallow embedding of the orientation relay of
`frameworks/native/service/sensorservice_dev/ForOrientationSensor.cpp`:

* the producer fragment of `process()` (lines 348-357), which writes one
  `struct poll_data` into the pipe `pipefd` when `connected` is set;
* the server thread `orient_readings_server` (lines 129-290): socket set-up,
  the accept loop and, inside it, the pump loop that polls the pipe, reads one
  `struct poll_data`, formats it with `snprintf`, compares it with
  `last_reading` and writes it to the client.

The server thread is a transition function on an explicit state.  A transition
is taken when a blocking call of the thread returns; what the operating system
returns is the input of the transition.  One pass of the pump loop (lines
214-284) is one transition, and the values returned by `poll`, `read` and
`write` during that pass are its input.

C library functions are modelled on lists of characters: a buffer is the list
of its bytes, `NUL` is the byte 0.  A `float` is its IEEE-754 binary32 bit
pattern, and `%f` prints the exact value of that pattern with six decimals.
-/

namespace ForOrientationSensor

/-! ## C library: strings and formatting -/

/-- The byte 0, which ends a C string. -/
def NUL : Char := Char.ofNat 0

/-- The C string held in a buffer: the bytes before the first `NUL`. -/
def cstr (buf : List Char) : List Char :=
  buf.takeWhile (fun c => decide (c ≠ NUL))

/-- The C function `strcmp`: it compares byte by byte up to and including the first `NUL`; a
buffer that ends is read as `NUL`.  The result is 0 exactly when the two C
strings are equal. -/
def strcmp : List Char → List Char → Int
  | [], [] => 0
  | [], b :: _ => (NUL.toNat : Int) - (b.toNat : Int)
  | a :: _, [] => (a.toNat : Int) - (NUL.toNat : Int)
  | a :: as, b :: bs =>
    if a = b then (if a = NUL then 0 else strcmp as bs)
    else (a.toNat : Int) - (b.toNat : Int)

/-- The C function `strcpy(dst, src)`: the C string of `src` and its terminating `NUL` are
stored at the start of `dst`; the bytes of `dst` behind them stay. -/
def strcpy (dst src : List Char) : List Char :=
  cstr src ++ NUL :: dst.drop ((cstr src).length + 1)

/-- The C function `snprintf(buf, size, ...)`, where `text` is the complete formatted output:
at most `size - 1` bytes of it are stored, then a `NUL`; the bytes of `buf`
behind them stay. -/
def snprintf (buf : List Char) (size : Nat) (text : List Char) : List Char :=
  if size = 0 then buf
  else text.take (size - 1) ++ NUL :: buf.drop ((text.take (size - 1)).length + 1)

/-- Decimal digits of `n`, most significant first, in front of `acc`. -/
def decimal : Nat → Nat → List Char → List Char
  | 0, _, acc => acc
  | fuel + 1, n, acc =>
    if n < 10 then Char.ofNat (48 + n) :: acc
    else decimal fuel (n / 10) (Char.ofNat (48 + n % 10) :: acc)

/-- Conversion `%u` of a natural number. -/
def fmt_u (n : Nat) : List Char := decimal (n + 1) n []

/-- Conversion `%d` of an `int` (an `int8_t` argument is promoted to `int`). -/
def fmt_d (i : Int) : List Char :=
  if i < 0 then '-' :: fmt_u i.natAbs else fmt_u i.natAbs

/-- A `float`: the 32 bits of an IEEE-754 binary32 value. -/
structure F32 where
  bits : Nat
  deriving DecidableEq, Repr

/-- The exact value `m * 2 ^ (k - 150)` printed with six decimals, rounded to
nearest, ties to even. -/
def fmt_fixed (m k : Nat) : List Char :=
  let num := m * 10 ^ 6 * 2 ^ (k - 150)
  let den := 2 ^ (150 - k)
  let q := num / den
  let r := num % den
  let q1 := if den < 2 * r ∨ (2 * r = den ∧ q % 2 = 1) then q + 1 else q
  let frac := fmt_u (q1 % 10 ^ 6)
  fmt_u (q1 / 10 ^ 6) ++ '.' :: (List.replicate (6 - frac.length) '0' ++ frac)

/-- The digits of conversion `%f` without the sign, from the biased exponent
`e` and the fraction bits `man`: `inf`, `nan`, a subnormal number
`man * 2 ^ (-149)` or a normal number `(2 ^ 23 + man) * 2 ^ (e - 150)`. -/
def fmt_f_body (e man : Nat) : List Char :=
  if e = 255 then (if man = 0 then ['i', 'n', 'f'] else ['n', 'a', 'n'])
  else if e = 0 then fmt_fixed man 1
  else fmt_fixed (2 ^ 23 + man) e

/-- Conversion `%f` of a `float` (promoted to `double`, which is exact): a
minus sign when the sign bit is set, then the digits. -/
def fmt_f (x : F32) : List Char :=
  if x.bits / 2 ^ 31 % 2 = 1 then '-' :: fmt_f_body (x.bits / 2 ^ 23 % 256) (x.bits % 2 ^ 23)
  else fmt_f_body (x.bits / 2 ^ 23 % 256) (x.bits % 2 ^ 23)

/-- The complete output of the format `"%f|%f|%f|%d"` (line 252). -/
def format (azimuth pitch roll : F32) (status : Int) : List Char :=
  fmt_f azimuth ++ '|' :: (fmt_f pitch ++ '|' :: (fmt_f roll ++ '|' :: fmt_d status))

/-! ## Constants and data of the source -/

/-- The constant `READINGS_BUF_SIZE` (line 94). -/
def READINGS_BUF_SIZE : Nat := 100

/-- The event bit `POLLIN` of `poll.h`. -/
def POLLIN : Int := 1

/-- Modelled from the spec: the constant `SENSOR_STATUS_ACCURACY_HIGH` of the
platform header `hardware/sensors.h`, which is not part of the repository; the
spec's scenarios publish the status 3. -/
def SENSOR_STATUS_ACCURACY_HIGH : Int := 3

/-- The record `struct poll_data` (lines 99-104). -/
structure poll_data where
  azimuth : F32
  pitch : F32
  roll : F32
  status : Int
  deriving DecidableEq, Repr

/-- One call `write(connfd, send_buf, READINGS_BUF_SIZE + 1)` (line 269): the
descriptor, the bytes handed over and the value the call returned. -/
structure write_call where
  fd : Int
  buf : List Char
  ret : Int
  deriving DecidableEq, Repr

/-- The blocking call at which the server thread stands; `returned` is the
thread after one of its `return` statements. -/
inductive Pc where
  | socket
  | setsockopt
  | bind
  | listen
  | accept
  | poll
  | nanosleep
  | returned
  deriving DecidableEq, Repr

/-- State of the relay.  `connected` is the static flag of line 128, `pipe` the
unread content of `pipefd` (whole `struct poll_data` records, oldest first),
`listenfd` to `status` the locals of `orient_readings_server`.  The last five
fields are not variables of the program: `wrote`, `reads` and `closed` log the
calls of `write` (line 269), the records taken by `read` (line 232) and the
descriptors given to `close` (line 189); `accepted` says that `accept` has
returned a connection that has not been closed since, and `broken` that a
`write` on it has returned -1. -/
structure Server where
  pc : Pc
  connected : Bool
  pipe : List poll_data
  listenfd : Int
  connfd : Int
  last_reading : List Char
  azimuth : F32
  pitch : F32
  roll : F32
  status : Int
  wrote : List write_call
  reads : List poll_data
  closed : List Int
  accepted : Bool
  broken : Bool
  deriving DecidableEq, Repr

/-- The process before the server thread has made its first call: `connected`
is a zero-initialised static, the pipe is empty. -/
def boot : Server :=
  { pc := .socket, connected := false, pipe := [], listenfd := -1, connfd := -1,
    last_reading := [], azimuth := ⟨0⟩, pitch := ⟨0⟩, roll := ⟨0⟩, status := 0,
    wrote := [], reads := [], closed := [], accepted := false, broken := false }

/-- What the system returns during one pass of the pump loop: the value of
`poll` and the `revents` it stored, the value of `read`, and the value of
`write` (used only when the pass reaches line 269). -/
structure Wake where
  poll_ret : Int
  revents : Int
  bytes_read : Int
  bytes_wrote : Int
  deriving DecidableEq, Repr

/-- An input of the relay: a blocking call of the server thread other than
`poll` returns `r`; the pump loop makes one pass; the sensor pipeline runs the
producer fragment with the estimate `g = (x, y, z)`. -/
inductive Input where
  | ret (r : Int)
  | wake (w : Wake)
  | estimate (x y z : F32)
  deriving DecidableEq, Repr

/-! ## The producer fragment of `process()` -/

/-- Lines 348-357: when `connected` is set, one `struct poll_data` with the
estimate and `SENSOR_STATUS_ACCURACY_HIGH` is written to the pipe, behind what
is already there; otherwise nothing happens. -/
def process (s : Server) (x y z : F32) : Server :=
  if s.connected then
    { s with pipe := s.pipe ++ [poll_data.mk x y z SENSOR_STATUS_ACCURACY_HIGH] }
  else s

/-! ## The server thread -/

/-- Lines 251-253: `send_buf` is zero-initialised with `READINGS_BUF_SIZE + 1`
bytes and filled by `snprintf` with the size `sizeof(send_buf) - 1`. -/
def send_buf (azimuth pitch roll : F32) (status : Int) : List Char :=
  snprintf (List.replicate (READINGS_BUF_SIZE + 1) NUL) (READINGS_BUF_SIZE + 1 - 1)
    (format azimuth pitch roll status)

/-- Lines 251-283: format the current reading, write it when it differs from
`last_reading`, leave the pump loop when that write returns -1, otherwise copy
it to `last_reading`. -/
def relay (s : Server) (w : Wake) : Server :=
  let buf := send_buf s.azimuth s.pitch s.roll s.status
  if strcmp s.last_reading buf ≠ 0 then
    let s1 := { s with
      wrote := s.wrote ++
        [write_call.mk s.connfd (buf.take (READINGS_BUF_SIZE + 1)) w.bytes_wrote] }
    if w.bytes_wrote = -1 then
      { s1 with broken := true, pc := .nanosleep }
    else
      { s1 with last_reading := strcpy s1.last_reading buf }
  else
    { s with last_reading := strcpy s.last_reading buf }

/-- Lines 214-284, one pass of the pump loop.  A failed `poll`, an event other
than `POLLIN` and a failed `read` start the next pass at once.  A `read` of
zero bytes keeps the current reading.  Any other `read` takes the oldest record
of the pipe: the producer writes whole records of `sizeof(struct poll_data)`
bytes and the pump asks for as many.  With an empty pipe the call would still
be waiting, and nothing happens. -/
def pump (s : Server) (w : Wake) : Server :=
  if w.poll_ret = -1 then s
  else if w.revents ≠ POLLIN then s
  else if w.bytes_read = -1 then s
  else if w.bytes_read = 0 then relay s w
  else
    match s.pipe with
    | [] => s
    | p :: rest =>
      relay { s with
        azimuth := p.azimuth, pitch := p.pitch, roll := p.roll, status := p.status,
        pipe := rest, reads := s.reads ++ [p] } w

/-- Lines 184-195, from the top of the accept loop to the call of `accept`:
`connected` is cleared and the last connection, if there is one, is closed. -/
def loop_top (s : Server) : Server :=
  if s.connfd ≠ -1 then
    { s with connected := false, closed := s.closed ++ [s.connfd], accepted := false,
             pc := .accept }
  else
    { s with connected := false, pc := .accept }

/-- The thread function `orient_readings_server` (lines 129-290) as a
transition function. -/
def orient_readings_server (s : Server) : Input → Server
  | .ret r =>
    match s.pc with
    | .socket =>
      if r = -1 then { s with listenfd := r, pc := .returned }
      else { s with listenfd := r, pc := .setsockopt }
    | .setsockopt => if r = -1 then { s with pc := .returned } else { s with pc := .bind }
    | .bind => if r = -1 then { s with pc := .returned } else { s with pc := .listen }
    | .listen => if r = -1 then { s with pc := .returned } else loop_top s
    | .accept =>
      if r = -1 then { s with connfd := r, pc := .returned }
      else
        { s with
          connfd := r, connected := true, accepted := true, broken := false,
          last_reading := List.replicate (READINGS_BUF_SIZE + 1) NUL,
          azimuth := ⟨0⟩, pitch := ⟨0⟩, roll := ⟨0⟩, status := -1,
          pc := .poll }
    | .poll => s
    | .nanosleep => loop_top s
    | .returned => s
  | .wake w => if s.pc = .poll then pump s w else s
  | .estimate x y z => process s x y z

/-- The relay after a sequence of inputs. -/
def run (s : Server) (ins : List Input) : Server :=
  ins.foldl orient_readings_server s

/-! ## Observations -/

/-- The write calls made since the state `s0`. -/
def sent (s0 s : Server) : List write_call :=
  s.wrote.drop s0.wrote.length

/-- The record texts of a list of write calls. -/
def texts (ws : List write_call) : List (List Char) :=
  ws.map (fun c => cstr c.buf)

/-- The text of the most recent of a list of write calls, empty if there is
none. -/
def last_text (ws : List write_call) : List Char :=
  match ws.getLast? with
  | none => []
  | some c => cstr c.buf

/-- A pass of the pump loop in which `poll` and `read` succeed and `read`
returns data. -/
def Wake.reads_data (w : Wake) : Prop :=
  w.poll_ret ≠ -1 ∧ w.revents = POLLIN ∧ w.bytes_read ≠ -1 ∧ w.bytes_read ≠ 0

/-- An input that belongs to the life of one connection: a pass of the pump
loop or a run of the producer. -/
def Input.on_connection : Input → Prop
  | .ret _ => False
  | .wake _ => True
  | .estimate _ _ _ => True

/-- Publishing each estimate and letting the pump make one pass after it. -/
def publish_each : List (F32 × F32 × F32 × Wake) → List Input
  | [] => []
  | (x, y, z, w) :: rest => .estimate x y z :: .wake w :: publish_each rest

instance (w : Wake) : Decidable w.reads_data :=
  inferInstanceAs (Decidable (w.poll_ret ≠ -1 ∧ w.revents = POLLIN ∧ w.bytes_read ≠ -1 ∧
    w.bytes_read ≠ 0))

instance (i : Input) : Decidable i.on_connection :=
  match i with
  | .ret _ => inferInstanceAs (Decidable False)
  | .wake _ => inferInstanceAs (Decidable True)
  | .estimate _ _ _ => inferInstanceAs (Decidable True)

/-- The float 1.0 -/
def f1 : F32 := ⟨0x3F800000⟩
/-- The float 2.0 -/
def f2 : F32 := ⟨0x40000000⟩
/-- The float 3.0 -/
def f3 : F32 := ⟨0x40400000⟩
/-- The float 4.0 -/
def f4 : F32 := ⟨0x40800000⟩
/-- The largest finite float. -/
def fmax : F32 := ⟨0x7F7FFFFF⟩

/-- A pass in which everything succeeds: `read` returns the 16 bytes of a
record and `write` the 101 bytes of the buffer. -/
def wake_ok : Wake := ⟨1, POLLIN, 16, 101⟩

/-- A server that has been set up and waits in `accept` for its first client. -/
def listening : Server := run boot [.ret 3, .ret 0, .ret 0, .ret 0]


/-! ## Further definitions used by the statements -/

/-- The text that `snprintf` leaves in `send_buf`: the first 99 bytes of the
formatted output. -/
def record_text (a p r : F32) (st : Int) : List Char :=
  (format a p r st).take 99

/-- The current reading of the pump: its locals `azimuth`, `pitch`, `roll` and
`status` as one record. -/
def Server.reading (s : Server) : poll_data :=
  ⟨s.azimuth, s.pitch, s.roll, s.status⟩

/-- The record text of a reading. -/
def poll_data.text (p : poll_data) : List Char :=
  record_text p.azimuth p.pitch p.roll p.status

/-- The record text of a published estimate. -/
def estimate_text (e : F32 × F32 × F32 × Wake) : List Char :=
  record_text e.1 e.2.1 e.2.2.1 SENSOR_STATUS_ACCURACY_HIGH

/-- A pass of the pump loop that ends before anything is read: `poll` fails,
reports an event other than `POLLIN`, or `read` fails. -/
def Wake.skips (w : Wake) : Prop :=
  w.poll_ret = -1 ∨ w.revents ≠ POLLIN ∨ w.bytes_read = -1

/-- An input that leaves the locals and the logs of the server thread alone:
a run of the producer, or a pass of the pump loop that reads nothing. -/
def Input.no_read : Input → Prop
  | .ret _ => False
  | .wake w => w.skips
  | .estimate _ _ _ => True

/-- What the flags are at each point of the server thread. -/
def flags_at (t : Server) : Prop :=
  match t.pc with
  | .socket => t.connected = false ∧ t.accepted = false ∧ t.broken = false ∧ t.connfd = -1
  | .setsockopt => t.connected = false ∧ t.accepted = false ∧ t.broken = false ∧ t.connfd = -1
  | .bind => t.connected = false ∧ t.accepted = false ∧ t.broken = false ∧ t.connfd = -1
  | .listen => t.connected = false ∧ t.accepted = false ∧ t.broken = false ∧ t.connfd = -1
  | .accept => t.connected = false ∧ t.accepted = false
  | .returned => t.connected = false ∧ t.accepted = false
  | .poll => t.connected = true ∧ t.accepted = true ∧ t.broken = false ∧ t.connfd ≠ -1
  | .nanosleep => t.connected = true ∧ t.accepted = true ∧ t.broken = true ∧ t.connfd ≠ -1

/-- What holds of a state `s` reached on the connection that was accepted in
the state `s0`, in terms of the write calls `ws` and the records `rs` read
since then. -/
structure OnConn (s0 s : Server) (ws : List write_call) (rs : List poll_data) : Prop where
  wrote_eq : s.wrote = s0.wrote ++ ws
  reads_eq : s.reads = s0.reads ++ rs
  chain : List.Chain' (fun a b : write_call => cstr a.buf ≠ cstr b.buf) ws
  at_pc : s.pc = .poll ∨ s.pc = .nanosleep
  fd_eq : s.connfd = s0.connfd
  flag_eq : s.connected = s0.connected
  last_eq : s.pc = .poll → cstr s.last_reading = last_text ws
  has_NUL : s.pc = .poll → NUL ∈ s.last_reading
  seen : rs ≠ [] → rs.getLast? = some s.reading
  fresh : s.pc = .poll → rs ≠ [] → cstr s.last_reading = s.reading.text
  bufs : ∀ c ∈ ws, c.fd = s0.connfd ∧ c.buf.length = 101 ∧ cstr c.buf ≠ []

/-- The records that the producer runs of a sequence of inputs hand to the
pipe while `connected` is set, in order. -/
def published : List Input → List poll_data
  | [] => []
  | .estimate x y z :: rest => ⟨x, y, z, SENSOR_STATUS_ACCURACY_HIGH⟩ :: published rest
  | .ret _ :: rest => published rest
  | .wake _ :: rest => published rest

/-- An input of a connection on which nothing fails: a run of the producer, or
a pass of the pump loop in which `poll` and `read` succeed, `read` returns
data and `write`, if it is called, does not return -1. -/
def Input.succeeds : Input → Prop
  | .ret _ => False
  | .wake w => w.reads_data ∧ w.bytes_wrote ≠ -1
  | .estimate _ _ _ => True

instance (i : Input) : Decidable i.succeeds :=
  match i with
  | .ret _ => inferInstanceAs (Decidable False)
  | .wake w => inferInstanceAs (Decidable (w.reads_data ∧ w.bytes_wrote ≠ -1))
  | .estimate _ _ _ => inferInstanceAs (Decidable True)

/-! ## Lemmas on the C library model -/

theorem cstr_nil : cstr [] = [] := rfl

theorem cstr_cons_NUL (r : List Char) : cstr (NUL :: r) = [] := by
  simp [cstr, List.takeWhile]

theorem cstr_cons_of_ne {c : Char} (h : c ≠ NUL) (r : List Char) :
    cstr (c :: r) = c :: cstr r := by
  simp [cstr, List.takeWhile, h]

theorem cstr_append_NUL (t r : List Char) (h : ∀ c ∈ t, c ≠ NUL) :
    cstr (t ++ NUL :: r) = t := by
  induction t with
  | nil => simpa using cstr_cons_NUL r
  | cons c t ih =>
    have hc : c ≠ NUL := h c (List.mem_cons_self _ _)
    have ht : ∀ d ∈ t, d ≠ NUL := fun d hd => h d (List.mem_cons_of_mem _ hd)
    simp [cstr_cons_of_ne hc, ih ht]

theorem cstr_no_NUL (buf : List Char) : ∀ c ∈ cstr buf, c ≠ NUL := by
  intro c hc
  have := List.mem_takeWhile_imp hc
  simpa using this

theorem toNat_sub_eq_zero {a b : Char} (h : (a.toNat : Int) - (b.toNat : Int) = 0) : a = b := by
  have h1 : a.toNat = b.toNat := by omega
  exact Char.ext (UInt32.ext h1)

theorem strcmp_eq_zero_iff (a b : List Char) : strcmp a b = 0 ↔ cstr a = cstr b := by
  induction a generalizing b with
  | nil =>
    cases b with
    | nil => simp [strcmp, cstr_nil]
    | cons y ys =>
      by_cases hy : y = NUL
      · subst hy; simp [strcmp, cstr_nil, cstr_cons_NUL]
      · simp only [strcmp, cstr_nil, cstr_cons_of_ne hy]
        constructor
        · intro h; exact absurd (toNat_sub_eq_zero h).symm hy
        · intro h; cases h
  | cons x xs ih =>
    cases b with
    | nil =>
      by_cases hx : x = NUL
      · subst hx; simp [strcmp, cstr_nil, cstr_cons_NUL]
      · simp only [strcmp, cstr_nil, cstr_cons_of_ne hx]
        constructor
        · intro h; exact absurd (toNat_sub_eq_zero h) hx
        · intro h; cases h
    | cons y ys =>
      by_cases hxy : x = y
      · subst hxy
        by_cases hx : x = NUL
        · subst hx; simp [strcmp, cstr_cons_NUL]
        · simp [strcmp, hx, cstr_cons_of_ne hx, ih]
      · simp only [strcmp, hxy, if_false]
        constructor
        · intro h; exact absurd (toNat_sub_eq_zero h) hxy
        · intro h
          by_cases hx : x = NUL
          · subst hx
            have hy : y ≠ NUL := fun e => hxy e.symm
            rw [cstr_cons_NUL, cstr_cons_of_ne hy] at h; cases h
          · by_cases hy : y = NUL
            · subst hy
              rw [cstr_cons_NUL, cstr_cons_of_ne hx] at h; cases h
            · rw [cstr_cons_of_ne hx, cstr_cons_of_ne hy] at h
              exact absurd (List.cons.inj h).1 hxy

theorem digit_ne_NUL (k : Nat) (h : k < 10) : Char.ofNat (48 + k) ≠ NUL := by
  interval_cases k <;> decide

theorem decimal_no_NUL (fuel n : Nat) (acc : List Char) (h : ∀ c ∈ acc, c ≠ NUL) :
    ∀ c ∈ decimal fuel n acc, c ≠ NUL := by
  induction fuel generalizing n acc with
  | zero => simpa [decimal] using h
  | succ fuel ih =>
    unfold decimal
    split
    · rename_i hn
      intro c hc
      rcases List.mem_cons.1 hc with rfl | hc
      · exact digit_ne_NUL n hn
      · exact h c hc
    · apply ih
      intro c hc
      rcases List.mem_cons.1 hc with rfl | hc
      · exact digit_ne_NUL _ (Nat.mod_lt _ (by decide))
      · exact h c hc

theorem fmt_u_no_NUL (n : Nat) : ∀ c ∈ fmt_u n, c ≠ NUL :=
  decimal_no_NUL _ _ _ (by simp)

theorem fmt_d_no_NUL (i : Int) : ∀ c ∈ fmt_d i, c ≠ NUL := by
  unfold fmt_d
  split
  · intro c hc
    rcases List.mem_cons.1 hc with rfl | hc
    · decide
    · exact fmt_u_no_NUL _ c hc
  · exact fmt_u_no_NUL _

theorem fmt_fixed_no_NUL (m k : Nat) : ∀ c ∈ fmt_fixed m k, c ≠ NUL := by
  intro c hc
  unfold fmt_fixed at hc
  rcases List.mem_append.1 hc with hc | hc
  · exact fmt_u_no_NUL _ c hc
  · rcases List.mem_cons.1 hc with rfl | hc
    · decide
    · rcases List.mem_append.1 hc with hc | hc
      · rw [List.eq_of_mem_replicate hc]; decide
      · exact fmt_u_no_NUL _ c hc

theorem fmt_f_body_no_NUL (e man : Nat) : ∀ c ∈ fmt_f_body e man, c ≠ NUL := by
  unfold fmt_f_body
  split
  · split
    · decide
    · decide
  · split
    · exact fmt_fixed_no_NUL _ _
    · exact fmt_fixed_no_NUL _ _

theorem fmt_f_no_NUL (x : F32) : ∀ c ∈ fmt_f x, c ≠ NUL := by
  unfold fmt_f
  split
  · intro c hc
    rcases List.mem_cons.1 hc with rfl | hc
    · decide
    · exact fmt_f_body_no_NUL _ _ c hc
  · exact fmt_f_body_no_NUL _ _

theorem sep_no_NUL (t r : List Char) (ht : ∀ c ∈ t, c ≠ NUL) (hr : ∀ c ∈ r, c ≠ NUL) :
    ∀ c ∈ t ++ '|' :: r, c ≠ NUL := by
  intro c hc
  rcases List.mem_append.1 hc with hc | hc
  · exact ht c hc
  · rcases List.mem_cons.1 hc with rfl | hc
    · decide
    · exact hr c hc

theorem format_no_NUL (a p r : F32) (st : Int) : ∀ c ∈ format a p r st, c ≠ NUL := by
  unfold format
  exact sep_no_NUL _ _ (fmt_f_no_NUL a) (sep_no_NUL _ _ (fmt_f_no_NUL p)
    (sep_no_NUL _ _ (fmt_f_no_NUL r) (fmt_d_no_NUL st)))

theorem decimal_ne_nil (fuel n : Nat) (acc : List Char) (h : acc ≠ [] ∨ fuel ≠ 0) :
    decimal fuel n acc ≠ [] := by
  induction fuel generalizing n acc with
  | zero => rcases h with h | h
            · simpa [decimal] using h
            · exact absurd rfl h
  | succ fuel ih =>
    unfold decimal
    split
    · simp
    · exact ih _ _ (Or.inl (by simp))

theorem fmt_u_ne_nil (n : Nat) : fmt_u n ≠ [] :=
  decimal_ne_nil _ _ _ (Or.inr (by omega))

theorem record_text_ne_nil (a p r : F32) (st : Int) : record_text a p r st ≠ [] := by
  unfold record_text format
  have h := fmt_u_ne_nil
  intro hnil
  have hl := congrArg List.length hnil
  simp only [List.length_take, List.length_append, List.length_cons, List.length_nil] at hl
  omega

theorem record_text_no_NUL (a p r : F32) (st : Int) : ∀ c ∈ record_text a p r st, c ≠ NUL :=
  fun c hc => format_no_NUL a p r st c (List.mem_of_mem_take hc)

theorem send_buf_eq (a p r : F32) (st : Int) :
    send_buf a p r st = record_text a p r st ++
      List.replicate (101 - (record_text a p r st).length) NUL := by
  unfold send_buf snprintf record_text READINGS_BUF_SIZE
  have hlen : ((format a p r st).take 99).length ≤ 99 := by
    simp [List.length_take]
  simp only [show (100 + 1 - 1 : Nat) = 100 from rfl, show (100 - 1 : Nat) = 99 from rfl,
    show (100 : Nat) ≠ 0 from by decide, if_false, List.drop_replicate]
  generalize ((format a p r st).take 99).length = n at hlen
  have : 101 - n = (100 + 1 - (n + 1)) + 1 := by omega
  rw [this, List.replicate_succ]

theorem send_buf_length (a p r : F32) (st : Int) : (send_buf a p r st).length = 101 := by
  rw [send_buf_eq]
  have hlen : (record_text a p r st).length ≤ 99 := by
    simp [record_text, List.length_take]
  simp only [List.length_append, List.length_replicate]
  omega

theorem cstr_send_buf (a p r : F32) (st : Int) :
    cstr (send_buf a p r st) = record_text a p r st := by
  rw [send_buf_eq]
  have hlen : (record_text a p r st).length ≤ 99 := by
    simp [record_text, List.length_take]
  have : 101 - (record_text a p r st).length = (100 - (record_text a p r st).length) + 1 := by
    omega
  rw [this, List.replicate_succ]
  exact cstr_append_NUL _ _ (record_text_no_NUL a p r st)

theorem send_buf_take (a p r : F32) (st : Int) :
    (send_buf a p r st).take (READINGS_BUF_SIZE + 1) = send_buf a p r st := by
  apply List.take_of_length_le
  rw [send_buf_length]; decide

theorem cstr_strcpy (dst src : List Char) : cstr (strcpy dst src) = cstr src := by
  unfold strcpy
  exact cstr_append_NUL _ _ (cstr_no_NUL src)

theorem NUL_mem_strcpy (dst src : List Char) : NUL ∈ strcpy dst src := by
  unfold strcpy; simp

/-! ## Lemmas on the pump loop -/

theorem relay_same (s : Server) (w : Wake)
    (h : cstr s.last_reading = s.reading.text) :
    relay s w = { s with
      last_reading := strcpy s.last_reading (send_buf s.azimuth s.pitch s.roll s.status) } := by
  have h0 : strcmp s.last_reading (send_buf s.azimuth s.pitch s.roll s.status) = 0 := by
    rw [strcmp_eq_zero_iff, cstr_send_buf]; exact h
  simp only [relay, h0, ne_eq, not_true_eq_false, if_false]

theorem relay_diff (s : Server) (w : Wake)
    (h : cstr s.last_reading ≠ s.reading.text) :
    relay s w =
      if w.bytes_wrote = -1 then
        { s with
          wrote := s.wrote ++
            [write_call.mk s.connfd (send_buf s.azimuth s.pitch s.roll s.status) w.bytes_wrote],
          broken := true, pc := .nanosleep }
      else
        { s with
          wrote := s.wrote ++
            [write_call.mk s.connfd (send_buf s.azimuth s.pitch s.roll s.status) w.bytes_wrote],
          last_reading := strcpy s.last_reading (send_buf s.azimuth s.pitch s.roll s.status) } := by
  have h0 : strcmp s.last_reading (send_buf s.azimuth s.pitch s.roll s.status) ≠ 0 := by
    rw [ne_eq, strcmp_eq_zero_iff, cstr_send_buf]; exact h
  simp only [relay, h0, ne_eq, not_false_eq_true, if_true, send_buf_take]

theorem last_text_nil : last_text [] = [] := rfl

theorem last_text_snoc (ws : List write_call) (c : write_call) :
    last_text (ws ++ [c]) = cstr c.buf := by
  simp [last_text]

theorem OnConn.after_relay (s0 s : Server) (ws : List write_call) (rs : List poll_data)
    (w : Wake) (hpc : s.pc = .poll)
    (hw : s.wrote = s0.wrote ++ ws) (hr : s.reads = s0.reads ++ rs)
    (hch : List.Chain' (fun a b : write_call => cstr a.buf ≠ cstr b.buf) ws)
    (hfd : s.connfd = s0.connfd) (hfl : s.connected = s0.connected)
    (hlast : cstr s.last_reading = last_text ws)
    (hseen : rs ≠ [] → rs.getLast? = some s.reading)
    (hbufs : ∀ c ∈ ws, c.fd = s0.connfd ∧ c.buf.length = 101 ∧ cstr c.buf ≠ []) :
    ∃ ws1, OnConn s0 (relay s w) ws1 rs := by
  by_cases h : cstr s.last_reading = s.reading.text
  · refine ⟨ws, ?_⟩
    rw [relay_same s w h]
    exact
      { wrote_eq := hw, reads_eq := hr, chain := hch, at_pc := Or.inl hpc, fd_eq := hfd,
        flag_eq := hfl
        last_eq := fun _ => by
          simp only [cstr_strcpy, cstr_send_buf]; exact h.symm.trans hlast
        has_NUL := fun _ => NUL_mem_strcpy _ _
        seen := hseen
        fresh := fun _ _ => by simp only [cstr_strcpy, cstr_send_buf]; rfl
        bufs := hbufs }
  · refine ⟨ws ++ [write_call.mk s.connfd (send_buf s.azimuth s.pitch s.roll s.status)
        w.bytes_wrote], ?_⟩
    have hch1 : List.Chain' (fun a b : write_call => cstr a.buf ≠ cstr b.buf)
        (ws ++ [write_call.mk s.connfd (send_buf s.azimuth s.pitch s.roll s.status)
          w.bytes_wrote]) := by
      rw [List.chain'_append]
      refine ⟨hch, List.chain'_singleton _, ?_⟩
      intro x hx y hy
      simp only [List.head?_cons, Option.mem_def, Option.some.injEq] at hy
      subst hy
      simp only [cstr_send_buf]
      have : last_text ws = cstr x.buf := by
        simp only [Option.mem_def] at hx
        simp [last_text, hx]
      rw [← this, ← hlast]; exact h
    have hb1 : ∀ c ∈ ws ++ [write_call.mk s.connfd (send_buf s.azimuth s.pitch s.roll s.status)
        w.bytes_wrote], c.fd = s0.connfd ∧ c.buf.length = 101 ∧ cstr c.buf ≠ [] := by
      intro c hc
      rcases List.mem_append.1 hc with hc | hc
      · exact hbufs c hc
      · rw [List.mem_singleton] at hc
        subst hc
        exact ⟨hfd, send_buf_length _ _ _ _, by
          simp only [cstr_send_buf]; exact record_text_ne_nil _ _ _ _⟩
    rw [relay_diff s w h]
    split
    · exact
        { wrote_eq := by simp [hw], reads_eq := hr, chain := hch1, at_pc := Or.inr rfl,
          fd_eq := hfd, flag_eq := hfl
          last_eq := fun hp => by cases hp
          has_NUL := fun hp => by cases hp
          seen := hseen
          fresh := fun hp => by cases hp
          bufs := hb1 }
    · exact
        { wrote_eq := by simp [hw], reads_eq := hr, chain := hch1, at_pc := Or.inl hpc,
          fd_eq := hfd, flag_eq := hfl
          last_eq := fun _ => by simp only [cstr_strcpy, last_text_snoc]
          has_NUL := fun _ => NUL_mem_strcpy _ _
          seen := hseen
          fresh := fun _ _ => by simp only [cstr_strcpy, cstr_send_buf]; rfl
          bufs := hb1 }

theorem accept_eq (s : Server) (fd : Int) (hs : s.pc = .accept) (hfd : fd ≠ -1) :
    orient_readings_server s (.ret fd) =
      { s with
        connfd := fd, connected := true, accepted := true, broken := false,
        last_reading := List.replicate (READINGS_BUF_SIZE + 1) NUL,
        azimuth := ⟨0⟩, pitch := ⟨0⟩, roll := ⟨0⟩, status := -1,
        pc := .poll } := by
  simp only [orient_readings_server, hs, hfd, if_false]

theorem cstr_replicate_NUL (n : Nat) : cstr (List.replicate n NUL) = [] := by
  cases n with
  | zero => rfl
  | succ n => rw [List.replicate_succ]; exact cstr_cons_NUL _

theorem OnConn.after_accept (s : Server) (fd : Int) (hs : s.pc = .accept) (hfd : fd ≠ -1) :
    OnConn (orient_readings_server s (.ret fd)) (orient_readings_server s (.ret fd)) [] [] := by
  rw [accept_eq s fd hs hfd]
  exact
    { wrote_eq := by simp, reads_eq := by simp, chain := List.chain'_nil, at_pc := Or.inl rfl,
      fd_eq := rfl, flag_eq := rfl
      last_eq := fun _ => cstr_replicate_NUL _
      has_NUL := fun _ => by simp [READINGS_BUF_SIZE]
      seen := fun h => absurd rfl h
      fresh := fun _ h => absurd rfl h
      bufs := fun c hc => by cases hc }

theorem OnConn.after_step {s0 s : Server} {ws : List write_call} {rs : List poll_data}
    (h : OnConn s0 s ws rs) (i : Input) (hi : i.on_connection) :
    ∃ ws1 rs1, OnConn s0 (orient_readings_server s i) ws1 rs1 := by
  cases i with
  | ret r => exact absurd hi (by simp [Input.on_connection])
  | estimate x y z =>
    refine ⟨ws, rs, ?_⟩
    simp only [orient_readings_server, process]
    split
    · exact
        { wrote_eq := h.wrote_eq, reads_eq := h.reads_eq, chain := h.chain, at_pc := h.at_pc,
          fd_eq := h.fd_eq, flag_eq := h.flag_eq, last_eq := h.last_eq, has_NUL := h.has_NUL,
          seen := h.seen, fresh := h.fresh, bufs := h.bufs }
    · exact h
  | wake w =>
    simp only [orient_readings_server]
    split
    · rename_i hpc
      unfold pump
      split
      · exact ⟨ws, rs, h⟩
      · split
        · exact ⟨ws, rs, h⟩
        · split
          · exact ⟨ws, rs, h⟩
          · split
            · obtain ⟨ws1, h1⟩ := OnConn.after_relay s0 s ws rs w hpc h.wrote_eq h.reads_eq
                h.chain h.fd_eq h.flag_eq (h.last_eq hpc) h.seen h.bufs
              exact ⟨ws1, rs, h1⟩
            · split
              · exact ⟨ws, rs, h⟩
              · rename_i p rest hp
                obtain ⟨ws1, h1⟩ := OnConn.after_relay s0
                  { s with
                    azimuth := p.azimuth, pitch := p.pitch, roll := p.roll, status := p.status,
                    pipe := rest, reads := s.reads ++ [p] } ws (rs ++ [p]) w hpc h.wrote_eq
                  (by simp [h.reads_eq]) h.chain h.fd_eq h.flag_eq (h.last_eq hpc)
                  (fun _ => by simp [Server.reading]) h.bufs
                exact ⟨ws1, rs ++ [p], h1⟩
    · exact ⟨ws, rs, h⟩

theorem OnConn.after_run {s0 : Server} (ins : List Input) :
    ∀ {s : Server} {ws : List write_call} {rs : List poll_data}, OnConn s0 s ws rs →
    (∀ i ∈ ins, i.on_connection) →
    ∃ ws1 rs1, OnConn s0 (run s ins) ws1 rs1 := by
  induction ins with
  | nil => intro s ws rs h _; exact ⟨ws, rs, h⟩
  | cons i ins ih =>
    intro s ws rs h hin
    obtain ⟨ws1, rs1, h1⟩ := h.after_step i (hin i (List.mem_cons_self _ _))
    exact ih h1 (fun j hj => hin j (List.mem_cons_of_mem _ hj))

theorem OnConn.sent_eq {s0 s : Server} {ws : List write_call} {rs : List poll_data}
    (h : OnConn s0 s ws rs) : sent s0 s = ws := by
  simp [sent, h.wrote_eq]

theorem OnConn.reads_drop {s0 s : Server} {ws : List write_call} {rs : List poll_data}
    (h : OnConn s0 s ws rs) : s.reads.drop s0.reads.length = rs := by
  simp [h.reads_eq]

theorem pump_data (s : Server) (w : Wake) (p : poll_data) (rest : List poll_data)
    (hw : w.reads_data) (hp : s.pipe = p :: rest) :
    pump s w = relay { s with
      azimuth := p.azimuth, pitch := p.pitch, roll := p.roll, status := p.status,
      pipe := rest, reads := s.reads ++ [p] } w := by
  obtain ⟨h1, h2, h3, h4⟩ := hw
  simp only [pump, h1, h2, h3, h4, hp, if_false, ne_eq, not_true_eq_false]

theorem pump_zero (s : Server) (w : Wake)
    (h1 : w.poll_ret ≠ -1) (h2 : w.revents = POLLIN) (h3 : w.bytes_read = 0) :
    pump s w = relay s w := by
  simp [pump, h1, h2, h3]

theorem pump_skips (s : Server) (w : Wake) (h : w.skips) : pump s w = s := by
  unfold pump
  rcases h with h | h | h
  · simp [h]
  · simp [h]
  · simp [h]

theorem destutter_head_tail {α : Type} (R : α → α → Prop) [DecidableRel R] (a : α) (l : List α) :
    List.destutter' R a l = a :: (List.destutter' R a l).tail := by
  induction l generalizing a with
  | nil => simp
  | cons b l ih =>
    rw [List.destutter'_cons]
    split
    · simp
    · exact ih a

theorem cstr_split (buf : List Char) (h : NUL ∈ buf) :
    buf = cstr buf ++ NUL :: buf.drop ((cstr buf).length + 1) := by
  induction buf with
  | nil => cases h
  | cons c r ih =>
    by_cases hc : c = NUL
    · subst hc; simp [cstr_cons_NUL]
    · have hr : NUL ∈ r := by
        rcases List.mem_cons.1 h with h | h
        · exact absurd h.symm hc
        · exact h
      rw [cstr_cons_of_ne hc]
      simp only [List.cons_append, List.length_cons, List.drop_succ_cons]
      exact congrArg _ (ih hr)

theorem strcpy_same (dst src : List Char) (hN : NUL ∈ dst) (h : cstr dst = cstr src) :
    strcpy dst src = dst := by
  unfold strcpy
  rw [← h]
  exact (cstr_split dst hN).symm

theorem relay_frame (s : Server) (w : Wake) :
    (relay s w).connected = s.connected ∧ (relay s w).accepted = s.accepted ∧
    (relay s w).connfd = s.connfd ∧ (relay s w).closed = s.closed ∧
    (((relay s w).wrote = s.wrote ∧ (relay s w).pc = s.pc ∧ (relay s w).broken = s.broken) ∨
     (w.bytes_wrote ≠ -1 ∧ (relay s w).wrote ≠ s.wrote ∧ (relay s w).pc = s.pc ∧
        (relay s w).broken = s.broken) ∨
     (w.bytes_wrote = -1 ∧ (relay s w).wrote ≠ s.wrote ∧ (relay s w).pc = .nanosleep ∧
        (relay s w).broken = true)) := by
  by_cases h : cstr s.last_reading = s.reading.text
  · rw [relay_same s w h]
    exact ⟨rfl, rfl, rfl, rfl, Or.inl ⟨rfl, rfl, rfl⟩⟩
  · rw [relay_diff s w h]
    split
    · rename_i hw
      exact ⟨rfl, rfl, rfl, rfl, Or.inr (Or.inr ⟨hw, by simp, rfl, rfl⟩)⟩
    · rename_i hw
      exact ⟨rfl, rfl, rfl, rfl, Or.inr (Or.inl ⟨hw, by simp, rfl, rfl⟩)⟩

theorem pump_frame (s : Server) (w : Wake) :
    (pump s w).connected = s.connected ∧ (pump s w).accepted = s.accepted ∧
    (pump s w).connfd = s.connfd ∧ (pump s w).closed = s.closed ∧
    (((pump s w).wrote = s.wrote ∧ (pump s w).pc = s.pc ∧ (pump s w).broken = s.broken) ∨
     (w.bytes_wrote ≠ -1 ∧ (pump s w).wrote ≠ s.wrote ∧ (pump s w).pc = s.pc ∧
        (pump s w).broken = s.broken) ∨
     (w.bytes_wrote = -1 ∧ (pump s w).wrote ≠ s.wrote ∧ (pump s w).pc = .nanosleep ∧
        (pump s w).broken = true)) := by
  unfold pump
  split
  · exact ⟨rfl, rfl, rfl, rfl, Or.inl ⟨rfl, rfl, rfl⟩⟩
  · split
    · exact ⟨rfl, rfl, rfl, rfl, Or.inl ⟨rfl, rfl, rfl⟩⟩
    · split
      · exact ⟨rfl, rfl, rfl, rfl, Or.inl ⟨rfl, rfl, rfl⟩⟩
      · split
        · exact relay_frame s w
        · split
          · exact ⟨rfl, rfl, rfl, rfl, Or.inl ⟨rfl, rfl, rfl⟩⟩
          · exact relay_frame _ w

theorem flags_at_loop_top (s : Server)
    (h : (s.connfd = -1 → s.accepted = false)) : flags_at (loop_top s) := by
  unfold loop_top
  split
  · simp [flags_at]
  · rename_i hfd
    simpa [flags_at] using h (by simpa using hfd)

theorem flags_at_step (s : Server) (i : Input) (h : flags_at s) :
    flags_at (orient_readings_server s i) := by
  cases i with
  | estimate x y z =>
    simp only [orient_readings_server, process]
    split
    · exact h
    · exact h
  | wake w =>
    simp only [orient_readings_server]
    split
    · rename_i hpc
      obtain ⟨h1, h2, h3, _, h5⟩ := pump_frame s w
      simp only [flags_at, hpc] at h
      rcases h5 with ⟨_, hp, hb⟩ | ⟨_, _, hp, hb⟩ | ⟨_, _, hp, hb⟩
      · simp only [flags_at, hp, hpc, h1, h2, h3, hb]; exact h
      · simp only [flags_at, hp, hpc, h1, h2, h3, hb]; exact h
      · simp only [flags_at, hp, h1, h2, h3, hb]; exact ⟨h.1, h.2.1, trivial, h.2.2.2⟩
    · exact h
  | ret r =>
    cases hpc : s.pc with
    | socket =>
      simp only [flags_at, hpc] at h
      simp only [orient_readings_server, hpc]
      split
      · exact ⟨h.1, h.2.1⟩
      · exact h
    | setsockopt =>
      simp only [flags_at, hpc] at h
      simp only [orient_readings_server, hpc]
      split
      · exact ⟨h.1, h.2.1⟩
      · exact h
    | bind =>
      simp only [flags_at, hpc] at h
      simp only [orient_readings_server, hpc]
      split
      · exact ⟨h.1, h.2.1⟩
      · exact h
    | listen =>
      simp only [flags_at, hpc] at h
      simp only [orient_readings_server, hpc]
      split
      · exact ⟨h.1, h.2.1⟩
      · exact flags_at_loop_top s (fun _ => h.2.1)
    | accept =>
      simp only [flags_at, hpc] at h
      simp only [orient_readings_server, hpc]
      split
      · exact h
      · rename_i hr
        exact ⟨rfl, rfl, rfl, hr⟩
    | poll =>
      simp only [orient_readings_server, hpc]
      exact h
    | nanosleep =>
      simp only [flags_at, hpc] at h
      simp only [orient_readings_server, hpc]
      exact flags_at_loop_top s (fun e => absurd e h.2.2.2)
    | returned =>
      simp only [orient_readings_server, hpc]
      exact h

theorem flags_at_run (ins : List Input) : ∀ (s : Server), flags_at s → flags_at (run s ins) := by
  induction ins with
  | nil => intro s h; exact h
  | cons i ins ih => intro s h; exact ih _ (flags_at_step s i h)

theorem no_read_step (s : Server) (i : Input) (h : i.no_read) :
    orient_readings_server s i = { s with pipe := (orient_readings_server s i).pipe } := by
  cases i with
  | ret r => exact absurd h (by simp [Input.no_read])
  | wake w =>
    simp only [orient_readings_server]
    split
    · rw [pump_skips s w h]
    · rfl
  | estimate x y z =>
    simp only [orient_readings_server, process]
    split
    · rfl
    · rfl

theorem no_read_run (ins : List Input) :
    ∀ (s : Server), (∀ i ∈ ins, i.no_read) → run s ins = { s with pipe := (run s ins).pipe } := by
  induction ins with
  | nil => intro s _; rfl
  | cons i ins ih =>
    intro s h
    have h1 := no_read_step s i (h i (List.mem_cons_self _ _))
    have h2 := ih (orient_readings_server s i) (fun j hj => h j (List.mem_cons_of_mem _ hj))
    have key : ∀ X, ({ (orient_readings_server s i) with pipe := X } : Server) =
        { s with pipe := X } := by
      intro X; rw [h1]
    exact h2.trans (key _)

theorem relay_keeps (s : Server) (w : Wake) :
    (relay s w).reading = s.reading ∧ (relay s w).pipe = s.pipe ∧
    (relay s w).reads = s.reads := by
  unfold relay
  simp only []
  split
  · split
    · exact ⟨rfl, rfl, rfl⟩
    · exact ⟨rfl, rfl, rfl⟩
  · exact ⟨rfl, rfl, rfl⟩

theorem pump_empty (s : Server) (w : Wake) (hw : w.reads_data) (hp : s.pipe = []) :
    pump s w = s := by
  obtain ⟨h1, h2, h3, h4⟩ := hw
  simp only [pump, h1, h2, h3, h4, hp, if_false, ne_eq, not_true_eq_false]

theorem wake_eq_pump (s : Server) (w : Wake) (hpc : s.pc = .poll) :
    orient_readings_server s (.wake w) = pump s w := by
  simp only [orient_readings_server, hpc, if_true]

theorem run_cons (s : Server) (i : Input) (ins : List Input) :
    run s (i :: ins) = run (orient_readings_server s i) ins := rfl

theorem destutter_from_empty (ts : List (List Char)) (h : ∀ t ∈ ts, t ≠ []) :
    (List.destutter' (· ≠ ·) ([] : List Char) ts).tail = List.destutter (· ≠ ·) ts := by
  cases ts with
  | nil => simp
  | cons t ts =>
    have hne : ([] : List Char) ≠ t := fun e => h t (List.mem_cons_self _ _) e.symm
    rw [List.destutter'_cons_pos _ hne, List.tail_cons, List.destutter_cons']

theorem run_reads (ins : List Input) :
    ∀ (s : Server), s.pc = .poll → s.connected = true → (∀ i ∈ ins, i.succeeds) →
    ∃ ws rs, (run s ins).wrote = s.wrote ++ ws ∧ (run s ins).reads = s.reads ++ rs ∧
      rs ++ (run s ins).pipe = s.pipe ++ published ins ∧
      texts ws = (List.destutter' (· ≠ ·) (cstr s.last_reading)
        (rs.map poll_data.text)).tail := by
  induction ins with
  | nil =>
    intro s _ _ _
    exact ⟨[], [], by simp [run], by simp [run], by simp [run, published], by simp [texts]⟩
  | cons i ins ih =>
    intro s hpc hc hin
    have hin1 : ∀ j ∈ ins, j.succeeds := fun j hj => hin j (List.mem_cons_of_mem _ hj)
    have hi := hin i (List.mem_cons_self _ _)
    rw [run_cons]
    cases i with
    | ret r => exact absurd hi (by simp [Input.succeeds])
    | estimate x y z =>
      have e1 : orient_readings_server s (.estimate x y z) =
          { s with pipe := s.pipe ++ [poll_data.mk x y z SENSOR_STATUS_ACCURACY_HIGH] } := by
        simp [orient_readings_server, process, hc]
      rw [e1]
      obtain ⟨ws, rs, h1, h2, h3, h4⟩ := ih
        { s with pipe := s.pipe ++ [poll_data.mk x y z SENSOR_STATUS_ACCURACY_HIGH] }
        hpc hc hin1
      refine ⟨ws, rs, h1, h2, ?_, h4⟩
      rw [h3]
      simp [published]
    | wake w =>
      obtain ⟨hw, hwr⟩ := hi
      rw [wake_eq_pump s w hpc]
      cases hq : s.pipe with
      | nil =>
        rw [pump_empty s w hw hq]
        obtain ⟨ws, rs, h1, h2, h3, h4⟩ := ih s hpc hc hin1
        refine ⟨ws, rs, h1, h2, ?_, h4⟩
        rw [h3, hq]
        simp [published]
      | cons p rest =>
        rw [pump_data s w p rest hw hq]
        obtain ⟨t, ht⟩ : ∃ t : Server, t = { s with
            azimuth := p.azimuth, pitch := p.pitch, roll := p.roll, status := p.status,
            pipe := rest, reads := s.reads ++ [p] } := ⟨_, rfl⟩
        have tpc : t.pc = .poll := by rw [ht]; exact hpc
        have tc : t.connected = true := by rw [ht]; exact hc
        have tp : t.pipe = rest := by rw [ht]
        have tl : t.last_reading = s.last_reading := by rw [ht]
        have tw : t.wrote = s.wrote := by rw [ht]
        have trd : t.reads = s.reads ++ [p] := by rw [ht]
        have tt : t.reading.text = p.text := by rw [ht]; rfl
        have tb : cstr (send_buf t.azimuth t.pitch t.roll t.status) = p.text := by
          rw [cstr_send_buf]; exact tt
        rw [← ht, ← tl]
        by_cases h : cstr t.last_reading = p.text
        · rw [relay_same t w (h.trans tt.symm)]
          obtain ⟨ws, rs, h1, h2, h3, h4⟩ := ih { t with
            last_reading := strcpy t.last_reading (send_buf t.azimuth t.pitch t.roll t.status) }
            tpc tc hin1
          refine ⟨ws, p :: rs, by rw [h1, ← tw], by rw [h2, trd]; simp, ?_, ?_⟩
          · rw [List.cons_append, h3, tp]; simp [published]
          · rw [h4, List.map_cons, List.destutter'_cons_neg _ (by simpa using h)]
            simp only [cstr_strcpy, tb, h]
        · rw [relay_diff t w (fun e => h (e.trans tt)), if_neg hwr]
          obtain ⟨ws, rs, h1, h2, h3, h4⟩ := ih { t with
            wrote := t.wrote ++
              [write_call.mk t.connfd (send_buf t.azimuth t.pitch t.roll t.status) w.bytes_wrote],
            last_reading := strcpy t.last_reading (send_buf t.azimuth t.pitch t.roll t.status) }
            tpc tc hin1
          refine ⟨write_call.mk t.connfd (send_buf t.azimuth t.pitch t.roll t.status)
            w.bytes_wrote :: ws, p :: rs, by rw [h1, ← tw]; simp, by rw [h2, trd]; simp, ?_, ?_⟩
          · rw [List.cons_append, h3, tp]; simp [published]
          · rw [List.map_cons, List.destutter'_cons_pos _ (by simpa using h), List.tail_cons,
              destutter_head_tail]
            simp only [texts, List.map_cons, tb]
            simp only [texts, cstr_strcpy, tb] at h4
            rw [h4]

theorem pump_cases (s : Server) (w : Wake) :
    pump s w = s ∨
    ∃ u : Server, pump s w = relay u w ∧ u.last_reading = s.last_reading ∧
      u.wrote = s.wrote ∧ u.connfd = s.connfd ∧ u.pc = s.pc := by
  unfold pump
  split
  · exact Or.inl rfl
  · split
    · exact Or.inl rfl
    · split
      · exact Or.inl rfl
      · split
        · exact Or.inr ⟨s, rfl, rfl, rfl, rfl, rfl⟩
        · split
          · exact Or.inl rfl
          · exact Or.inr ⟨_, rfl, rfl, rfl, rfl, rfl⟩

/-! ## The claims -/

/-- C1, refuted as stated: a write to client A fails, an estimate published
during the pause of line 286 stays in the pipe, and client B is accepted.  B
is connected throughout, each pass reads one record and every write to B
succeeds, yet the records written to B are those of (4.0, 2.0, 3.0) and
(2.0, 2.0, 2.0), not the collapsed texts of the estimates published to B,
(2.0, 2.0, 2.0) and (3.0, 3.0, 3.0). -/
theorem records_collapse_repeats_refuted :
    (run listening [.ret 4, .estimate f1 f2 f3, .wake ⟨1, POLLIN, 16, -1⟩,
      .estimate f4 f2 f3, .ret 0]).pc = .accept ∧
    (run (orient_readings_server (run listening [.ret 4, .estimate f1 f2 f3,
        .wake ⟨1, POLLIN, 16, -1⟩, .estimate f4 f2 f3, .ret 0]) (.ret 5))
        (publish_each [(f2, f2, f2, wake_ok), (f3, f3, f3, wake_ok)])).pc = .poll ∧
    texts (sent
      (orient_readings_server (run listening [.ret 4, .estimate f1 f2 f3,
        .wake ⟨1, POLLIN, 16, -1⟩, .estimate f4 f2 f3, .ret 0]) (.ret 5))
      (run (orient_readings_server (run listening [.ret 4, .estimate f1 f2 f3,
        .wake ⟨1, POLLIN, 16, -1⟩, .estimate f4 f2 f3, .ret 0]) (.ret 5))
        (publish_each [(f2, f2, f2, wake_ok), (f3, f3, f3, wake_ok)]))) =
      ["4.000000|2.000000|3.000000|3".toList, "2.000000|2.000000|2.000000|3".toList] ∧
    List.destutter (· ≠ ·)
        ([(f2, f2, f2, wake_ok), (f3, f3, f3, wake_ok)].map estimate_text) =
      ["2.000000|2.000000|2.000000|3".toList, "3.000000|3.000000|3.000000|3".toList] ∧
    texts (sent
      (orient_readings_server (run listening [.ret 4, .estimate f1 f2 f3,
        .wake ⟨1, POLLIN, 16, -1⟩, .estimate f4 f2 f3, .ret 0]) (.ret 5))
      (run (orient_readings_server (run listening [.ret 4, .estimate f1 f2 f3,
        .wake ⟨1, POLLIN, 16, -1⟩, .estimate f4 f2 f3, .ret 0]) (.ret 5))
        (publish_each [(f2, f2, f2, wake_ok), (f3, f3, f3, wake_ok)]))) ≠
      List.destutter (· ≠ ·)
        ([(f2, f2, f2, wake_ok), (f3, f3, f3, wake_ok)].map estimate_text) := by
  decide

/-- C1, amended: on one connection, for every interleaving of producer runs
and pump passes in which each pass reads data and no write returns -1, the
texts of the records written to the client, in order, are the texts of the
records read from the pipe with every run of equal neighbours collapsed to its
first element; the records read, followed by those still in the pipe, are the
records that were in the pipe at `accept` followed by the published ones.  So
when the connection was accepted with an empty pipe and every published sample
has been read, the texts written are the collapsed texts of the formatted
published samples. -/
theorem records_collapse_repeats (s : Server) (fd : Int) (ins : List Input)
    (hs : s.pc = .accept) (hfd : fd ≠ -1) (hin : ∀ i ∈ ins, i.succeeds) :
    texts (sent (orient_readings_server s (.ret fd))
      (run (orient_readings_server s (.ret fd)) ins)) =
      List.destutter (· ≠ ·)
        (((run (orient_readings_server s (.ret fd)) ins).reads.drop
          (orient_readings_server s (.ret fd)).reads.length).map poll_data.text) ∧
    (run (orient_readings_server s (.ret fd)) ins).reads.drop
        (orient_readings_server s (.ret fd)).reads.length ++
      (run (orient_readings_server s (.ret fd)) ins).pipe = s.pipe ++ published ins ∧
    (s.pipe = [] → (run (orient_readings_server s (.ret fd)) ins).pipe = [] →
      texts (sent (orient_readings_server s (.ret fd))
        (run (orient_readings_server s (.ret fd)) ins)) =
      List.destutter (· ≠ ·) ((published ins).map poll_data.text)) := by
  have e0 := accept_eq s fd hs hfd
  obtain ⟨ws, rs, h1, h2, h3, h4⟩ := run_reads ins (orient_readings_server s (.ret fd))
    (by rw [e0]) (by rw [e0]) hin
  have hsent : sent (orient_readings_server s (.ret fd))
      (run (orient_readings_server s (.ret fd)) ins) = ws := by
    simp [sent, h1]
  have hreads : (run (orient_readings_server s (.ret fd)) ins).reads.drop
      (orient_readings_server s (.ret fd)).reads.length = rs := by
    simp [h2]
  have hlast : cstr (orient_readings_server s (.ret fd)).last_reading = [] := by
    rw [e0]; exact cstr_replicate_NUL _
  have hpipe : (orient_readings_server s (.ret fd)).pipe = s.pipe := by rw [e0]
  have htexts : texts ws = List.destutter (· ≠ ·) (rs.map poll_data.text) := by
    rw [h4, hlast]
    apply destutter_from_empty
    intro t ht
    obtain ⟨p, _, rfl⟩ := List.mem_map.1 ht
    exact record_text_ne_nil _ _ _ _
  rw [hsent, hreads]
  rw [hpipe] at h3
  refine ⟨htexts, h3, fun hp hq => ?_⟩
  rw [hq, hp] at h3
  rw [htexts]
  simp only [List.append_nil, List.nil_append] at h3
  rw [h3]

/-- C1, amended, the scenario of the spec: publishing (1.0, 2.0, 3.0), the same
again and (4.0, 2.0, 3.0), each with status 3, to the first client of a server
writes exactly two records. -/
theorem records_collapse_repeats_witness :
    texts (sent (orient_readings_server listening (.ret 4))
      (run (orient_readings_server listening (.ret 4))
        (publish_each [(f1, f2, f3, wake_ok), (f1, f2, f3, wake_ok), (f4, f2, f3, wake_ok)]))) =
    ["1.000000|2.000000|3.000000|3".toList, "4.000000|2.000000|3.000000|3".toList] :=
  ((records_collapse_repeats listening 4
    (publish_each [(f1, f2, f3, wake_ok), (f1, f2, f3, wake_ok), (f4, f2, f3, wake_ok)])
    (by decide) (by decide) (by decide)).2.2 (by decide) (by decide)).trans (by decide)

/-- C2: whatever the state left by earlier connections, after `accept` has
returned a new connection the first record that the pump reads from the pipe
is written to that connection: before it only runs of the producer and passes
that read nothing have happened, and the one write call made on the new
connection carries the buffer formatted from that record. -/
theorem first_sample_is_written (s : Server) (fd : Int) (pre : List Input)
    (p : poll_data) (q : List poll_data) (w : Wake)
    (hs : s.pc = .accept) (hfd : fd ≠ -1) (hpre : ∀ i ∈ pre, i.no_read)
    (hpipe : (run (orient_readings_server s (.ret fd)) pre).pipe = p :: q)
    (hw : w.reads_data) :
    sent (orient_readings_server s (.ret fd))
      (run (orient_readings_server s (.ret fd)) (pre ++ [.wake w])) =
    [write_call.mk fd (send_buf p.azimuth p.pitch p.roll p.status) w.bytes_wrote] := by
  have hrun : run (orient_readings_server s (.ret fd)) (pre ++ [.wake w]) =
      orient_readings_server (run (orient_readings_server s (.ret fd)) pre) (.wake w) := by
    simp [run, List.foldl_append]
  have hsame := no_read_run pre (orient_readings_server s (.ret fd)) hpre
  obtain ⟨t, ht⟩ : ∃ t, t = run (orient_readings_server s (.ret fd)) pre := ⟨_, rfl⟩
  rw [hrun, ← ht]
  rw [← ht] at hsame hpipe
  have e0 := accept_eq s fd hs hfd
  have tpc : t.pc = .poll := by rw [hsame, e0]
  have tl : cstr t.last_reading = [] := by rw [hsame, e0]; exact cstr_replicate_NUL _
  have tw : t.wrote = (orient_readings_server s (.ret fd)).wrote := by rw [hsame]
  have tfd : t.connfd = fd := by rw [hsame, e0]
  have hstep : orient_readings_server t (.wake w) = pump t w := by
    simp only [orient_readings_server, tpc, if_true]
  rw [hstep, pump_data t w p q hw hpipe]
  have hne : cstr t.last_reading ≠ p.text := by
    rw [tl]; exact fun h => record_text_ne_nil _ _ _ _ h.symm
  rw [relay_diff _ w hne]
  split
  · simp [sent, tw, tfd]
  · simp [sent, tw, tfd]

/-- C2, the scenario of the spec: client A receives the record of
(1.0, 2.0, 3.0), a later write to A fails and the loop accepts client B; the
state still holds A's last text, and B receives the record of the republished
(1.0, 2.0, 3.0). -/
theorem first_sample_is_written_witness :
    cstr (run listening [.ret 4, .estimate f1 f2 f3, .wake wake_ok, .estimate f4 f2 f3,
        .wake ⟨1, POLLIN, 16, -1⟩, .ret 0]).last_reading = "1.000000|2.000000|3.000000|3".toList ∧
    sent (orient_readings_server (run listening [.ret 4, .estimate f1 f2 f3, .wake wake_ok,
        .estimate f4 f2 f3, .wake ⟨1, POLLIN, 16, -1⟩, .ret 0]) (.ret 5))
      (run (orient_readings_server (run listening [.ret 4, .estimate f1 f2 f3, .wake wake_ok,
        .estimate f4 f2 f3, .wake ⟨1, POLLIN, 16, -1⟩, .ret 0]) (.ret 5))
        ([.estimate f1 f2 f3] ++ [.wake wake_ok])) =
    [write_call.mk 5 (send_buf f1 f2 f3 3) 101] :=
  ⟨by decide,
   first_sample_is_written
    (run listening [.ret 4, .estimate f1 f2 f3, .wake wake_ok, .estimate f4 f2 f3,
        .wake ⟨1, POLLIN, 16, -1⟩, .ret 0]) 5 [.estimate f1 f2 f3]
    ⟨f1, f2, f3, 3⟩ [] wake_ok (by decide) (by decide)
    (by intro i hi; rw [List.mem_singleton] at hi; subst hi; exact trivial)
    (by decide) (by decide)⟩

/-- C3, refuted as stated: (1.0, 2.0, 3.0) and then (4.0, 2.0, 3.0) are
published with no pass of the pump in between; the next pass reads and sends
the first of them, not the latest, and the latest is still queued. -/
theorem latest_write_wins_refuted :
    (run listening [.ret 4, .estimate f1 f2 f3, .estimate f4 f2 f3, .wake wake_ok]).reading =
      ⟨f1, f2, f3, 3⟩ ∧
    (run listening [.ret 4, .estimate f1 f2 f3, .estimate f4 f2 f3, .wake wake_ok]).reading ≠
      ⟨f4, f2, f3, 3⟩ ∧
    (run listening [.ret 4, .estimate f1 f2 f3, .estimate f4 f2 f3, .wake wake_ok]).pipe =
      [⟨f4, f2, f3, 3⟩] ∧
    texts (run listening [.ret 4, .estimate f1 f2 f3, .estimate f4 f2 f3, .wake wake_ok]).wrote =
      ["1.000000|2.000000|3.000000|3".toList] := by
  decide

/-- C3, amended: the sample channel is a first-in first-out pipe.  When two
estimates are published while a client is connected, with nothing unread
before them and no pass of the pump in between, the next pass reads the first
one and leaves the second one queued; the pass after it (the write of the
first not having returned -1) reads the second.  Both are read, in publish
order. -/
theorem pipe_is_first_in_first_out (s : Server) (x1 y1 z1 x2 y2 z2 : F32) (w1 w2 : Wake)
    (hpc : s.pc = .poll) (hc : s.connected = true) (hp : s.pipe = [])
    (h1 : w1.reads_data) (hw1 : w1.bytes_wrote ≠ -1) (h2 : w2.reads_data) :
    (run s [.estimate x1 y1 z1, .estimate x2 y2 z2, .wake w1]).reading =
      ⟨x1, y1, z1, SENSOR_STATUS_ACCURACY_HIGH⟩ ∧
    (run s [.estimate x1 y1 z1, .estimate x2 y2 z2, .wake w1]).pipe =
      [⟨x2, y2, z2, SENSOR_STATUS_ACCURACY_HIGH⟩] ∧
    (run s [.estimate x1 y1 z1, .estimate x2 y2 z2, .wake w1, .wake w2]).reading =
      ⟨x2, y2, z2, SENSOR_STATUS_ACCURACY_HIGH⟩ ∧
    (run s [.estimate x1 y1 z1, .estimate x2 y2 z2, .wake w1, .wake w2]).pipe = [] ∧
    (run s [.estimate x1 y1 z1, .estimate x2 y2 z2, .wake w1, .wake w2]).reads =
      s.reads ++ [⟨x1, y1, z1, SENSOR_STATUS_ACCURACY_HIGH⟩,
        ⟨x2, y2, z2, SENSOR_STATUS_ACCURACY_HIGH⟩] := by
  have e1 : run s [.estimate x1 y1 z1, .estimate x2 y2 z2] =
      { s with pipe := [⟨x1, y1, z1, SENSOR_STATUS_ACCURACY_HIGH⟩,
          ⟨x2, y2, z2, SENSOR_STATUS_ACCURACY_HIGH⟩] } := by
    simp [run, orient_readings_server, process, hc, hp]
  obtain ⟨t, ht⟩ : ∃ t, t = run s [.estimate x1 y1 z1, .estimate x2 y2 z2, .wake w1] :=
    ⟨_, rfl⟩
  have e2 : t = relay { s with
      azimuth := x1, pitch := y1, roll := z1, status := SENSOR_STATUS_ACCURACY_HIGH,
      pipe := [⟨x2, y2, z2, SENSOR_STATUS_ACCURACY_HIGH⟩],
      reads := s.reads ++ [⟨x1, y1, z1, SENSOR_STATUS_ACCURACY_HIGH⟩] } w1 := by
    rw [ht]
    show orient_readings_server (run s [.estimate x1 y1 z1, .estimate x2 y2 z2]) (.wake w1) = _
    rw [e1]
    simp only [orient_readings_server, hpc, if_true]
    rw [pump_data _ w1 ⟨x1, y1, z1, SENSOR_STATUS_ACCURACY_HIGH⟩
      [⟨x2, y2, z2, SENSOR_STATUS_ACCURACY_HIGH⟩] h1 rfl]
  have e3 : run s [.estimate x1 y1 z1, .estimate x2 y2 z2, .wake w1, .wake w2] =
      orient_readings_server t (.wake w2) := by rw [ht]; rfl
  obtain ⟨k1, k2, k3⟩ := relay_keeps { s with
      azimuth := x1, pitch := y1, roll := z1, status := SENSOR_STATUS_ACCURACY_HIGH,
      pipe := [⟨x2, y2, z2, SENSOR_STATUS_ACCURACY_HIGH⟩],
      reads := s.reads ++ [⟨x1, y1, z1, SENSOR_STATUS_ACCURACY_HIGH⟩] } w1
  obtain ⟨_, _, _, _, k5⟩ := relay_frame { s with
      azimuth := x1, pitch := y1, roll := z1, status := SENSOR_STATUS_ACCURACY_HIGH,
      pipe := [⟨x2, y2, z2, SENSOR_STATUS_ACCURACY_HIGH⟩],
      reads := s.reads ++ [⟨x1, y1, z1, SENSOR_STATUS_ACCURACY_HIGH⟩] } w1
  rw [← e2] at k1 k2 k3 k5
  have tpc : t.pc = .poll := by
    rcases k5 with ⟨_, hp, _⟩ | ⟨_, _, hp, _⟩ | ⟨hm, _⟩
    · rw [hp]; exact hpc
    · rw [hp]; exact hpc
    · exact absurd hm hw1
  rw [e3, ← ht]
  have hstep : orient_readings_server t (.wake w2) = pump t w2 := by
    simp only [orient_readings_server, tpc, if_true]
  have e4 : orient_readings_server t (.wake w2) = relay { t with
      azimuth := x2, pitch := y2, roll := z2, status := SENSOR_STATUS_ACCURACY_HIGH,
      pipe := [], reads := t.reads ++ [⟨x2, y2, z2, SENSOR_STATUS_ACCURACY_HIGH⟩] } w2 := by
    rw [hstep, pump_data t w2 ⟨x2, y2, z2, SENSOR_STATUS_ACCURACY_HIGH⟩ [] h2 k2]
  obtain ⟨m1, m2, m3⟩ := relay_keeps { t with
      azimuth := x2, pitch := y2, roll := z2, status := SENSOR_STATUS_ACCURACY_HIGH,
      pipe := [], reads := t.reads ++ [⟨x2, y2, z2, SENSOR_STATUS_ACCURACY_HIGH⟩] } w2
  rw [← e4] at m1 m2 m3
  refine ⟨k1, k2, m1, m2, ?_⟩
  rw [m3, k3]
  simp

/-- C3, amended, at the estimates (1.0, 2.0, 3.0) and (4.0, 2.0, 3.0). -/
theorem pipe_is_first_in_first_out_witness :
    (run (orient_readings_server listening (.ret 4))
      [.estimate f1 f2 f3, .estimate f4 f2 f3, .wake wake_ok]).reading = ⟨f1, f2, f3, 3⟩ ∧
    (run (orient_readings_server listening (.ret 4))
      [.estimate f1 f2 f3, .estimate f4 f2 f3, .wake wake_ok, .wake wake_ok]).reading =
      ⟨f4, f2, f3, 3⟩ :=
  have h := pipe_is_first_in_first_out (orient_readings_server listening (.ret 4))
    f1 f2 f3 f4 f2 f3 wake_ok wake_ok (by decide) (by decide) (by decide) (by decide)
    (by decide) (by decide)
  ⟨h.1, h.2.2.1⟩

set_option maxRecDepth 100000 in
/-- C4, refuted as stated: for three times the largest finite float the
formatted output has more than 100 bytes, and the record is not its first 100
bytes followed by one `NUL`. -/
theorem record_keeps_100_bytes_refuted :
    100 < (format fmax fmax fmax 3).length ∧
    (send_buf fmax fmax fmax 3).take (READINGS_BUF_SIZE + 1) ≠
      (format fmax fmax fmax 3).take 100 ++ List.replicate (101 - 100) NUL := by
  decide

/-- C4, amended: whatever the reading, a pass that formats it either writes
nothing or makes one write call, and the buffer of that call has exactly 101
bytes: the first 99 bytes of the output of `"%f|%f|%f|%d"` (all of it when it
is shorter), followed only by `NUL` bytes. -/
theorem record_is_101_bytes (s : Server) (w : Wake) :
    (relay s w).wrote = s.wrote ∨
    ∃ c : write_call, (relay s w).wrote = s.wrote ++ [c] ∧ c.fd = s.connfd ∧
      c.ret = w.bytes_wrote ∧ c.buf.length = 101 ∧
      c.buf = (format s.azimuth s.pitch s.roll s.status).take 99 ++
        List.replicate (101 - ((format s.azimuth s.pitch s.roll s.status).take 99).length) NUL := by
  by_cases h : cstr s.last_reading = s.reading.text
  · left; rw [relay_same s w h]
  · right
    refine ⟨write_call.mk s.connfd (send_buf s.azimuth s.pitch s.roll s.status) w.bytes_wrote,
      ?_, rfl, rfl, send_buf_length _ _ _ _, send_buf_eq _ _ _ _⟩
    rw [relay_diff s w h]
    split
    · rfl
    · rfl

/-- C5, refuted as stated: a write that returns 50, fewer than the 101 bytes
of the record, leaves the pump running on the same connection; nothing is
closed, and the record is taken as sent. -/
theorem short_write_ends_pump_refuted :
    (run listening [.ret 4, .estimate f1 f2 f3, .wake ⟨1, POLLIN, 16, 50⟩]).wrote =
      [write_call.mk 4 (send_buf f1 f2 f3 3) 50] ∧
    (run listening [.ret 4, .estimate f1 f2 f3, .wake ⟨1, POLLIN, 16, 50⟩]).pc = .poll ∧
    (run listening [.ret 4, .estimate f1 f2 f3, .wake ⟨1, POLLIN, 16, 50⟩]).connfd = 4 ∧
    (run listening [.ret 4, .estimate f1 f2 f3, .wake ⟨1, POLLIN, 16, 50⟩]).closed = [] ∧
    (run listening [.ret 4, .estimate f1 f2 f3, .wake ⟨1, POLLIN, 16, 50⟩]).broken = false ∧
    cstr (run listening [.ret 4, .estimate f1 f2 f3,
      .wake ⟨1, POLLIN, 16, 50⟩]).last_reading = "1.000000|2.000000|3.000000|3".toList := by
  decide

/-- C5, amended: in a pass of the pump that makes a write call, the pump ends
exactly when the call returns -1; the accept loop then clears `connected`,
closes the connection and waits in `accept`, and a connection returned there
starts a new pump.  Any other return value, a short count included, keeps the
pump running on the same connection, and the record counts as sent: the pass
made one write call, `last_reading` holds the text of that call, and a
following pass that reads zero bytes, and so formats the same reading, makes
no write call. -/
theorem write_error_ends_pump (s : Server) (w : Wake)
    (hpc : s.pc = .poll) (hfd : s.connfd ≠ -1)
    (hwr : (orient_readings_server s (.wake w)).wrote ≠ s.wrote) :
    (w.bytes_wrote = -1 →
      (orient_readings_server s (.wake w)).pc = .nanosleep ∧
      ∀ r : Int,
        (orient_readings_server (orient_readings_server s (.wake w)) (.ret r)).pc = .accept ∧
        (orient_readings_server (orient_readings_server s (.wake w)) (.ret r)).connected = false ∧
        (orient_readings_server (orient_readings_server s (.wake w)) (.ret r)).closed =
          s.closed ++ [s.connfd] ∧
        ∀ fd : Int, fd ≠ -1 →
          (orient_readings_server
            (orient_readings_server (orient_readings_server s (.wake w)) (.ret r)) (.ret fd)).pc
              = .poll ∧
          (orient_readings_server
            (orient_readings_server (orient_readings_server s (.wake w)) (.ret r)) (.ret fd)).connfd
              = fd) ∧
    (w.bytes_wrote ≠ -1 →
      (orient_readings_server s (.wake w)).pc = .poll ∧
      (orient_readings_server s (.wake w)).connfd = s.connfd ∧
      (orient_readings_server s (.wake w)).closed = s.closed ∧
      (orient_readings_server s (.wake w)).wrote = s.wrote ++
        [write_call.mk s.connfd
          (send_buf (orient_readings_server s (.wake w)).azimuth
            (orient_readings_server s (.wake w)).pitch
            (orient_readings_server s (.wake w)).roll
            (orient_readings_server s (.wake w)).status) w.bytes_wrote] ∧
      cstr (orient_readings_server s (.wake w)).last_reading =
        last_text (orient_readings_server s (.wake w)).wrote ∧
      ∀ w2 : Wake, w2.poll_ret ≠ -1 → w2.revents = POLLIN → w2.bytes_read = 0 →
        (orient_readings_server (orient_readings_server s (.wake w)) (.wake w2)).wrote =
          (orient_readings_server s (.wake w)).wrote ∧
        (orient_readings_server (orient_readings_server s (.wake w)) (.wake w2)).pc = .poll) := by
  have hstep : orient_readings_server s (.wake w) = pump s w := wake_eq_pump s w hpc
  rw [hstep] at hwr ⊢
  obtain ⟨_, _, k3, k4, k5⟩ := pump_frame s w
  have hc := pump_cases s w
  obtain ⟨t, ht⟩ : ∃ t, t = pump s w := ⟨_, rfl⟩
  rw [← ht] at hwr k3 k4 k5 hc ⊢
  rcases k5 with ⟨hsame, _⟩ | ⟨hm, _, hp, _⟩ | ⟨hm, _, hp, _⟩
  · exact absurd hsame hwr
  · refine ⟨fun h => absurd h hm, fun _ => ?_⟩
    have tpc : t.pc = .poll := hp.trans hpc
    rcases hc with hc | ⟨u, hu, ul, uw, ufd, _⟩
    · exact absurd (by rw [hc]) hwr
    · have hdiff : cstr u.last_reading ≠ u.reading.text := by
        intro hsame
        apply hwr
        rw [hu, relay_same u w hsame]
        exact uw
      have e1 : t = { u with
          wrote := u.wrote ++
            [write_call.mk u.connfd (send_buf u.azimuth u.pitch u.roll u.status) w.bytes_wrote],
          last_reading := strcpy u.last_reading
            (send_buf u.azimuth u.pitch u.roll u.status) } := by
        rw [hu, relay_diff u w hdiff, if_neg hm]
      have ta : t.azimuth = u.azimuth := by rw [e1]
      have tp : t.pitch = u.pitch := by rw [e1]
      have tr : t.roll = u.roll := by rw [e1]
      have ts : t.status = u.status := by rw [e1]
      have tw : t.wrote = s.wrote ++
          [write_call.mk s.connfd (send_buf t.azimuth t.pitch t.roll t.status)
            w.bytes_wrote] := by
        rw [ta, tp, tr, ts, ← uw, ← ufd, e1]
      have tl : cstr t.last_reading = t.reading.text := by
        have : cstr t.last_reading =
            cstr (send_buf u.azimuth u.pitch u.roll u.status) := by
          rw [e1]; exact cstr_strcpy _ _
        rw [this, cstr_send_buf]
        show _ = record_text t.azimuth t.pitch t.roll t.status
        rw [ta, tp, tr, ts]
      refine ⟨tpc, k3, k4, tw, ?_, fun w2 q1 q2 q3 => ?_⟩
      · rw [tw, last_text_snoc, tl]
        show _ = cstr (send_buf t.azimuth t.pitch t.roll t.status)
        rw [cstr_send_buf]
        rfl
      · rw [wake_eq_pump t w2 tpc, pump_zero t w2 q1 q2 q3, relay_same t w2 tl]
        exact ⟨rfl, tpc⟩
  · refine ⟨fun _ => ⟨hp, fun r => ?_⟩, fun h => absurd hm h⟩
    have hfd1 : t.connfd ≠ -1 := by rw [k3]; exact hfd
    have e1 : orient_readings_server t (.ret r) =
        { t with connected := false, closed := t.closed ++ [t.connfd], accepted := false,
                 pc := .accept } := by
      simp only [orient_readings_server, hp, loop_top, hfd1, ne_eq, not_false_eq_true, if_true]
    rw [e1]
    refine ⟨rfl, rfl, by rw [k3, k4], fun fd hfd2 => ?_⟩
    rw [accept_eq _ fd rfl hfd2]
    exact ⟨rfl, rfl⟩

/-- C5, amended, on the first write to a client: with -1 the pump ends and
the loop returns to `accept`, with 50 it stays on the connection. -/
theorem write_error_ends_pump_witness :
    (orient_readings_server (run listening [.ret 4, .estimate f1 f2 f3])
      (.wake ⟨1, POLLIN, 16, -1⟩)).pc = .nanosleep ∧
    (orient_readings_server (run listening [.ret 4, .estimate f1 f2 f3])
      (.wake ⟨1, POLLIN, 16, 50⟩)).pc = .poll :=
  ⟨((write_error_ends_pump (run listening [.ret 4, .estimate f1 f2 f3])
      ⟨1, POLLIN, 16, -1⟩ (by decide) (by decide) (by decide)).1 (by decide)).1,
   ((write_error_ends_pump (run listening [.ret 4, .estimate f1 f2 f3])
      ⟨1, POLLIN, 16, 50⟩ (by decide) (by decide) (by decide)).2 (by decide)).1⟩

/-- C6, refuted as stated: after a client write has returned -1 the server
thread pauses at line 286 with `connected` still set, although the connection
has been detected as broken. -/
theorem connected_iff_live_refuted :
    (run boot [.ret 3, .ret 0, .ret 0, .ret 0, .ret 4, .estimate f1 f2 f3,
      .wake ⟨1, POLLIN, 16, -1⟩]).pc = .nanosleep ∧
    ¬ ((run boot [.ret 3, .ret 0, .ret 0, .ret 0, .ret 4, .estimate f1 f2 f3,
        .wake ⟨1, POLLIN, 16, -1⟩]).connected = true ↔
      ((run boot [.ret 3, .ret 0, .ret 0, .ret 0, .ret 4, .estimate f1 f2 f3,
        .wake ⟨1, POLLIN, 16, -1⟩]).accepted = true ∧
       (run boot [.ret 3, .ret 0, .ret 0, .ret 0, .ret 4, .estimate f1 f2 f3,
        .wake ⟨1, POLLIN, 16, -1⟩]).broken = false)) := by
  decide

/-- C6, amended: in every state reachable from the start of the process,
`connected` is set if and only if `accept` has returned a connection that the
accept loop has not closed yet; and `connected` is set on a connection known
to be broken exactly while the thread pauses at line 286, between the failed
write and the next turn of the accept loop. -/
theorem connected_iff_accepted (ins : List Input) :
    ((run boot ins).connected = true ↔ (run boot ins).accepted = true) ∧
    (((run boot ins).connected = true ∧ (run boot ins).broken = true) ↔
      (run boot ins).pc = .nanosleep) := by
  have h : flags_at (run boot ins) := flags_at_run ins boot (by simp [flags_at, boot])
  cases hpc : (run boot ins).pc <;> simp only [flags_at, hpc] at h <;> simp [h]

/-- C7, refuted as stated: when the first pass on a new connection reads zero
bytes, the record written ends in the status -1, not 0. -/
theorem zero_read_default_refuted :
    texts (sent (orient_readings_server listening (.ret 4))
      (run (orient_readings_server listening (.ret 4)) [.wake ⟨1, POLLIN, 0, 101⟩])) =
      ["0.000000|0.000000|0.000000|-1".toList] ∧
    texts (sent (orient_readings_server listening (.ret 4))
      (run (orient_readings_server listening (.ret 4)) [.wake ⟨1, POLLIN, 0, 101⟩])) ≠
      ["0.000000|0.000000|0.000000|0".toList] := by
  decide

/-- C7, amended: when the first pass of the pump on a newly accepted
connection reads zero bytes, the pump goes on with the initial values of its
locals, azimuth 0, pitch 0, roll 0 and status -1: it makes one write call,
whose text is `0.000000|0.000000|0.000000|-1`, and keeps running unless that
write returns -1. -/
theorem zero_read_writes_initial_reading (s : Server) (fd : Int) (w : Wake)
    (hs : s.pc = .accept) (hfd : fd ≠ -1)
    (h1 : w.poll_ret ≠ -1) (h2 : w.revents = POLLIN) (h3 : w.bytes_read = 0) :
    sent (orient_readings_server s (.ret fd))
      (run (orient_readings_server s (.ret fd)) [.wake w]) =
      [write_call.mk fd (send_buf ⟨0⟩ ⟨0⟩ ⟨0⟩ (-1)) w.bytes_wrote] ∧
    cstr (send_buf ⟨0⟩ ⟨0⟩ ⟨0⟩ (-1)) = "0.000000|0.000000|0.000000|-1".toList ∧
    (w.bytes_wrote ≠ -1 →
      (run (orient_readings_server s (.ret fd)) [.wake w]).pc = .poll) := by
  have e0 := accept_eq s fd hs hfd
  obtain ⟨t, ht⟩ : ∃ t, t = orient_readings_server s (.ret fd) := ⟨_, rfl⟩
  rw [← ht] at e0 ⊢
  have tpc : t.pc = .poll := by rw [e0]
  have tl : cstr t.last_reading = [] := by rw [e0]; exact cstr_replicate_NUL _
  have tfd : t.connfd = fd := by rw [e0]
  have ta : t.azimuth = ⟨0⟩ := by rw [e0]
  have tp : t.pitch = ⟨0⟩ := by rw [e0]
  have tr : t.roll = ⟨0⟩ := by rw [e0]
  have tst : t.status = -1 := by rw [e0]
  have hstep : run t [.wake w] = relay t w := by
    show orient_readings_server t (.wake w) = _
    simp only [orient_readings_server, tpc, if_true]
    exact pump_zero t w h1 h2 h3
  have hne : cstr t.last_reading ≠ t.reading.text := by
    rw [tl]; exact fun h => record_text_ne_nil _ _ _ _ h.symm
  rw [hstep, relay_diff t w hne]
  refine ⟨?_, by decide, ?_⟩
  · split
    · simp [sent, tfd, ta, tp, tr, tst]
    · simp [sent, tfd, ta, tp, tr, tst]
  · intro hw
    rw [if_neg hw]
    exact tpc

/-- C7, amended, on the first connection of a server. -/
theorem zero_read_writes_initial_reading_witness :
    sent (orient_readings_server listening (.ret 4))
      (run (orient_readings_server listening (.ret 4)) [.wake ⟨1, POLLIN, 0, 101⟩]) =
      [write_call.mk 4 (send_buf ⟨0⟩ ⟨0⟩ ⟨0⟩ (-1)) 101] :=
  (zero_read_writes_initial_reading listening 4 ⟨1, POLLIN, 0, 101⟩
    (by decide) (by decide) (by decide) (by decide) (by decide)).1

/-- C9: on a connection on which at least one record has been read from the
pipe and whose pump is still running, a pass that reads zero bytes leaves
azimuth, pitch, roll and status as they were, equal to the last record read;
the text it formats is the text held in `last_reading`, that of the previous
formatting pass, and no write call is made. -/
theorem zero_read_keeps_last_reading (s : Server) (fd : Int) (ins : List Input) (w : Wake)
    (hs : s.pc = .accept) (hfd : fd ≠ -1) (hin : ∀ i ∈ ins, i.on_connection)
    (hpc : (run (orient_readings_server s (.ret fd)) ins).pc = .poll)
    (hrd : (run (orient_readings_server s (.ret fd)) ins).reads.drop
      (orient_readings_server s (.ret fd)).reads.length ≠ [])
    (h1 : w.poll_ret ≠ -1) (h2 : w.revents = POLLIN) (h3 : w.bytes_read = 0) :
    (orient_readings_server (run (orient_readings_server s (.ret fd)) ins) (.wake w)).reading =
      (run (orient_readings_server s (.ret fd)) ins).reading ∧
    ((run (orient_readings_server s (.ret fd)) ins).reads.drop
      (orient_readings_server s (.ret fd)).reads.length).getLast? =
      some (orient_readings_server (run (orient_readings_server s (.ret fd)) ins)
        (.wake w)).reading ∧
    cstr (send_buf
      (orient_readings_server (run (orient_readings_server s (.ret fd)) ins) (.wake w)).azimuth
      (orient_readings_server (run (orient_readings_server s (.ret fd)) ins) (.wake w)).pitch
      (orient_readings_server (run (orient_readings_server s (.ret fd)) ins) (.wake w)).roll
      (orient_readings_server (run (orient_readings_server s (.ret fd)) ins) (.wake w)).status) =
      cstr (run (orient_readings_server s (.ret fd)) ins).last_reading ∧
    (orient_readings_server (run (orient_readings_server s (.ret fd)) ins) (.wake w)).wrote =
      (run (orient_readings_server s (.ret fd)) ins).wrote ∧
    (orient_readings_server (run (orient_readings_server s (.ret fd)) ins) (.wake w)).pc =
      .poll := by
  obtain ⟨ws, rs, h⟩ := OnConn.after_run ins (OnConn.after_accept s fd hs hfd) hin
  rw [h.reads_drop] at hrd ⊢
  obtain ⟨t, ht⟩ : ∃ t, t = run (orient_readings_server s (.ret fd)) ins := ⟨_, rfl⟩
  rw [← ht] at h hpc ⊢
  have hfresh := h.fresh hpc hrd
  have hstep : orient_readings_server t (.wake w) =
      { t with
        last_reading := strcpy t.last_reading (send_buf t.azimuth t.pitch t.roll t.status) } := by
    have hp : orient_readings_server t (.wake w) = pump t w := by
      simp only [orient_readings_server, hpc, if_true]
    rw [hp, pump_zero t w h1 h2 h3, relay_same t w hfresh]
  rw [hstep]
  refine ⟨rfl, h.seen hrd, ?_, rfl, hpc⟩
  simp only [cstr_send_buf]
  exact hfresh.symm

/-- C9, on the first connection of a server: after the record of
(1.0, 2.0, 3.0) a read of zero bytes keeps that reading and writes nothing. -/
theorem zero_read_keeps_last_reading_witness :
    (orient_readings_server (run (orient_readings_server listening (.ret 4))
      [.estimate f1 f2 f3, .wake wake_ok]) (.wake ⟨1, POLLIN, 0, 101⟩)).reading =
      ⟨f1, f2, f3, 3⟩ ∧
    (orient_readings_server (run (orient_readings_server listening (.ret 4))
      [.estimate f1 f2 f3, .wake wake_ok]) (.wake ⟨1, POLLIN, 0, 101⟩)).wrote =
      (run (orient_readings_server listening (.ret 4))
        [.estimate f1 f2 f3, .wake wake_ok]).wrote :=
  have h := zero_read_keeps_last_reading listening 4 [.estimate f1 f2 f3, .wake wake_ok]
    ⟨1, POLLIN, 0, 101⟩ (by decide) (by decide) (by decide) (by decide) (by decide)
    (by decide) (by decide) (by decide)
  ⟨h.1.trans (by decide), h.2.2.2.1⟩

/-- C10: at the start of every pass of the pump loop on a connection, the
text in `last_reading` is the text of the most recent write call made on that
connection, or empty when there has been none; and a pass that makes no write
call leaves `last_reading` as it was, so that copying the formatted text on
every pass is the same as copying it only when a record is sent. -/
theorem last_reading_is_last_record (s : Server) (fd : Int) (ins : List Input)
    (hs : s.pc = .accept) (hfd : fd ≠ -1) (hin : ∀ i ∈ ins, i.on_connection)
    (hpc : (run (orient_readings_server s (.ret fd)) ins).pc = .poll) :
    cstr (run (orient_readings_server s (.ret fd)) ins).last_reading =
      last_text (sent (orient_readings_server s (.ret fd))
        (run (orient_readings_server s (.ret fd)) ins)) ∧
    ∀ w : Wake,
      (orient_readings_server (run (orient_readings_server s (.ret fd)) ins) (.wake w)).wrote =
        (run (orient_readings_server s (.ret fd)) ins).wrote →
      (orient_readings_server (run (orient_readings_server s (.ret fd)) ins)
        (.wake w)).last_reading =
        (run (orient_readings_server s (.ret fd)) ins).last_reading := by
  obtain ⟨ws, rs, h⟩ := OnConn.after_run ins (OnConn.after_accept s fd hs hfd) hin
  rw [h.sent_eq]
  obtain ⟨t, ht⟩ : ∃ t, t = run (orient_readings_server s (.ret fd)) ins := ⟨_, rfl⟩
  rw [← ht] at h hpc ⊢
  refine ⟨h.last_eq hpc, fun w hw => ?_⟩
  have hN := h.has_NUL hpc
  have hstep : orient_readings_server t (.wake w) = pump t w := by
    simp only [orient_readings_server, hpc, if_true]
  rw [hstep] at hw ⊢
  have key : ∀ u : Server, u.last_reading = t.last_reading → u.wrote = t.wrote →
      (relay u w).wrote = t.wrote → (relay u w).last_reading = t.last_reading := by
    intro u hu huw hrel
    by_cases hsame : cstr u.last_reading = u.reading.text
    · rw [relay_same u w hsame]
      show strcpy u.last_reading _ = _
      rw [hu]
      apply strcpy_same _ _ hN
      rw [cstr_send_buf, ← hu]; exact hsame
    · exfalso
      rw [relay_diff u w hsame] at hrel
      split at hrel
      · simp [huw] at hrel
      · simp [huw] at hrel
  unfold pump at hw ⊢
  split
  · rfl
  · split
    · rfl
    · split
      · rfl
      · split
        · rename_i q1 q2 q3 q4
          simp only [q1, q2, q3, q4, if_false, if_true] at hw
          exact key t rfl rfl hw
        · rename_i q1 q2 q3 q4
          simp only [q1, q2, q3, q4, if_false] at hw
          split
          · rfl
          · rename_i p rest hp
            simp only [hp] at hw
            exact key _ rfl rfl hw

/-- C10, on the first connection of a server, after the records of
(1.0, 2.0, 3.0), the same again and (4.0, 2.0, 3.0). -/
theorem last_reading_is_last_record_witness :
    cstr (run (orient_readings_server listening (.ret 4))
      (publish_each [(f1, f2, f3, wake_ok), (f1, f2, f3, wake_ok),
        (f4, f2, f3, wake_ok)])).last_reading = "4.000000|2.000000|3.000000|3".toList :=
  (last_reading_is_last_record listening 4
    (publish_each [(f1, f2, f3, wake_ok), (f1, f2, f3, wake_ok), (f4, f2, f3, wake_ok)])
    (by decide) (by decide) (by decide) (by decide)).1.trans (by decide)

end ForOrientationSensor
